import Mathlib

/-!
Shallow embedding of the `predlozhka_bot` message-review bot
(`MessageReviewBot` in the main source file, plus `types.ts`).

The bot stages user submissions, lets the submitter choose a publication
mode, keeps a FIFO review queue, and lets a single admin publish, reject or
skip the head.  Handlers are embedded as pure functions from a `BotState`
(and the typed inbound event) to the next state together with the list of
observable effects, in program order.
-/

namespace PredlozhkaBot

/-- Publication mode (`publishType` in `types.ts`); `pending` is the
placeholder set by `handleUserMessage` before the submitter chooses. -/
inductive PublishType
  | pending
  | with_name
  | anonymous
deriving DecidableEq

/-- The four media kinds the bot subscribes to. -/
inductive MediaType
  | photo
  | video
  | document
  | audio
deriving DecidableEq

/-- `PendingMessage.media` in `types.ts`. -/
structure MediaData where
  fileId : String
  type : MediaType
  caption : Option String
deriving DecidableEq

/-- `PendingMessage` in `types.ts` (`caption_entities`/`entities`, unused by
the handlers, are omitted). -/
structure PendingMessage where
  userId : Nat
  userName : String
  username : Option String
  messageId : Nat
  chatId : Int
  text : Option String
  contentType : String
  media : Option MediaData
  timestamp : Nat
  publishType : PublishType
  choiceMessageId : Option Nat
deriving DecidableEq

/-- Keys of the `pendingMessages` map.  The source uses the string keys
`temp_<userId>_<messageId>`, `choice_<messageId>` and `<index>`; the three
formats never collide as strings, so they are modelled as a sum. -/
inductive MapKey
  | temp (userId : Nat) (messageId : Nat)
  | choice (messageId : Nat)
  | idx (i : Nat)
deriving DecidableEq

/-- The `pendingMessages` JS `Map`, as an insertion-ordered association
list with unique keys. -/
abbrev PendingMap := List (MapKey × PendingMessage)

/-- `Map.get`. -/
def mapGet (m : PendingMap) (k : MapKey) : Option PendingMessage :=
  match m with
  | [] => none
  | (k', v) :: rest => if k' = k then some v else mapGet rest k

/-- `Map.set`: replaces the value in place when the key exists, else
appends at the end. -/
def mapSet (m : PendingMap) (k : MapKey) (v : PendingMessage) : PendingMap :=
  match m with
  | [] => [(k, v)]
  | (k', v') :: rest => if k' = k then (k, v) :: rest else (k', v') :: mapSet rest k v

/-- `Map.delete`: removes the entry with the given key.  JS `Map` keys are
unique (and every map in this development is built from `[]` through
`mapSet`/`mapDelete`, which preserve uniqueness), so removing every matching
entry coincides with removing the unique one. -/
def mapDelete (m : PendingMap) (k : MapKey) : PendingMap :=
  match m with
  | [] => []
  | (k', v') :: rest => if k' = k then mapDelete rest k else (k', v') :: mapDelete rest k

/-- `BotState` in `types.ts`. -/
structure BotState where
  currentMessageIndex : Nat
  pendingMessages : PendingMap
  messageQueue : List PendingMessage
deriving DecidableEq

/-- The state built in the constructor. -/
def initialState : BotState := ⟨0, [], []⟩

/-- Payload of an inbound content event: the five update kinds the bot
subscribes to (`text`, `photo`, `video`, `document`, `audio`).  For a photo
the source keeps the file id of the last (largest) size; the model carries
that file id directly. -/
inductive IncomingContent
  | text (body : String)
  | photo (fileId : String) (caption : Option String)
  | video (fileId : String) (caption : Option String)
  | document (fileId : String) (caption : Option String)
  | audio (fileId : String) (caption : Option String)
deriving DecidableEq

/-- `getMessageText`: the text body when present, else the caption when the
message carries one, else `undefined`. -/
def getMessageText : IncomingContent → Option String
  | .text body => some body
  | .photo _ caption => caption
  | .video _ caption => caption
  | .document _ caption => caption
  | .audio _ caption => caption

/-- `getMessageType`.  The source's `'unknown'` fallback is unreachable for
the five subscribed update kinds. -/
def getMessageType : IncomingContent → String
  | .text _ => "text"
  | .photo _ _ => "photo"
  | .video _ _ => "video"
  | .document _ _ => "document"
  | .audio _ _ => "audio"

/-- `getMediaData`. -/
def getMediaData : IncomingContent → Option MediaData
  | .text _ => none
  | .photo fileId caption => some ⟨fileId, MediaType.photo, caption⟩
  | .video fileId caption => some ⟨fileId, MediaType.video, caption⟩
  | .document fileId caption => some ⟨fileId, MediaType.document, caption⟩
  | .audio fileId caption => some ⟨fileId, MediaType.audio, caption⟩

/-- JS truthiness of a string (`""` is falsy). -/
def strTruthy (s : String) : Bool := s != ""

/-- JS truthiness of an optional string (`undefined` and `""` are falsy). -/
def optTruthy : Option String → Bool
  | none => false
  | some s => s != ""

/-- What a channel send carries. -/
inductive ChannelContent
  | textPost (body : String)
  | mediaPost (mtype : MediaType) (fileId : String) (caption : Option String)
deriving DecidableEq

/-- Observable effects of one handler run, in program order.  `headRemoved`
is not a network send: it is an instrumentation marker emitted exactly where
`moveToNextMessage` performs its state mutation (the `pendingMessages.delete`
plus the `messageQueue.splice`), so that the order of that mutation relative
to the network sends can be stated. -/
inductive Output
  | replyChoicePrompt (chatId : Int) (messageId : Nat)
  | editMessageText (s : String)
  | answerCb (s : Option String)
  | userNotify (userId : Nat) (s : String)
  | adminSend (s : String)
  | adminPresent (m : PendingMessage)
  | channelPost (c : ChannelContent)
  | deleteAdminMessage
  | headRemoved
deriving DecidableEq

/-- One step of `escapeHTML`. -/
def escapeChar (c : Char) : String :=
  if c = '&' then "&amp;"
  else if c = '<' then "&lt;"
  else if c = '>' then "&gt;"
  else String.singleton c

/-- `escapeHTML` from `publishToChannel`: the three sequential global
replacements `&`→`&amp;`, then `<`→`&lt;`, then `>`→`&gt;`.  Each pattern is
a single character and the later patterns do not occur in the earlier
replacement strings, so the composition of the three global replaces is this
character-wise substitution. -/
def escapeHTML (text : String) : String :=
  String.join (text.toList.map escapeChar)

/-- The fixed promotional signature built in `publishToChannel`. -/
def signatureFor (botUsername : String) : String :=
  "\n\n<a href=\"https://t.me/" ++ botUsername ++ "\">Предложка</a>"

/-- `publishToChannel`, successful-transport path: composes the post per
publish mode, appends the signature, escapes, and dispatches one channel
send per the content kind.  Returns the channel sends (empty when the record
has neither media nor truthy text, in which case the source sends nothing). -/
def publishToChannel (botUsername : String) (m : PendingMessage) : List Output :=
  let signature := signatureFor botUsername
  let composed : String × String :=
    if m.publishType = PublishType.with_name then
      let authorInfo := "От: " ++ m.userName ++
        (if optTruthy m.username then " (@" ++ m.username.getD "" ++ ")" else "")
      match m.media with
      | some media =>
          (authorInfo ++ (if optTruthy media.caption then "\n\n" ++ media.caption.getD "" else ""),
           "")
      | none =>
          if optTruthy m.text then ("", authorInfo ++ "\n\n" ++ m.text.getD "") else ("", "")
    else
      match m.media with
      | some media =>
          if optTruthy media.caption then (media.caption.getD "", "")
          else if optTruthy m.text then ("", m.text.getD "")
          else ("", "")
      | none =>
          if optTruthy m.text then ("", m.text.getD "") else ("", "")
  let finalCaption :=
    if m.media.isSome then
      (if strTruthy composed.1 then composed.1 ++ signature else signature)
    else composed.1
  let finalText :=
    if m.media.isSome then composed.2
    else (if strTruthy composed.2 then composed.2 ++ signature else signature)
  match m.media with
  | some media =>
      [Output.channelPost (ChannelContent.mediaPost media.type media.fileId
        (if strTruthy finalCaption then some (escapeHTML finalCaption) else none))]
  | none =>
      if optTruthy m.text then
        [Output.channelPost (ChannelContent.textPost (escapeHTML finalText))]
      else []

/-- `sendMessageToAdmin`: presents a record to the reviewer together with
the three decision buttons (media send when media is present, else a text
send; a record with neither media nor truthy text sends nothing). -/
def sendMessageToAdmin (m : PendingMessage) : List Output :=
  if m.media.isSome then [Output.adminPresent m]
  else if optTruthy m.text then [Output.adminPresent m]
  else []

/-- `showNextMessageToAdmin`. -/
def showNextMessageToAdmin (s : BotState) : List Output :=
  if s.messageQueue.length = 0 then [Output.adminSend "Очередь сообщений пуста."]
  else
    match s.messageQueue[s.currentMessageIndex]? with
    | some m => sendMessageToAdmin m
    | none => []

/-- `moveToNextMessage`: deletes the current index key from the staging map
and splices the head out of the queue (emitting the `headRemoved` marker at
that mutation point), then either resets the index and reports the queue
done, or presents the new head. -/
def moveToNextMessage (s : BotState) : BotState × List Output :=
  let pm := mapDelete s.pendingMessages (MapKey.idx s.currentMessageIndex)
  let queue := s.messageQueue.eraseIdx s.currentMessageIndex
  if queue.length = 0 then
    (⟨0, pm, queue⟩, [Output.headRemoved, Output.adminSend "✅ Все сообщения обработаны!"])
  else
    let s' : BotState := ⟨s.currentMessageIndex, pm, queue⟩
    (s', Output.headRemoved :: showNextMessageToAdmin s')

/-- The mode-aware approval notice sent to the submitter in `handleApprove`. -/
def approveNotice (m : PendingMessage) : String :=
  "✅ Ваше сообщение было одобрено и опубликовано!" ++
    (if m.publishType = PublishType.with_name then " (с вашим именем)" else " (анонимно)")

/-- `handleApprove`: publish to the channel, notify the submitter, then
advance the queue. -/
def handleApprove (botUsername : String) (s : BotState) : BotState × List Output :=
  match s.messageQueue[s.currentMessageIndex]? with
  | none => (s, [Output.answerCb (some "Сообщение не найдено.")])
  | some currentMessage =>
    let posts := publishToChannel botUsername currentMessage
    let next := moveToNextMessage s
    (next.1, posts ++ [Output.userNotify currentMessage.userId (approveNotice currentMessage)]
      ++ next.2)

/-- `handleReject`: notify the submitter, then advance the queue. -/
def handleReject (s : BotState) : BotState × List Output :=
  match s.messageQueue[s.currentMessageIndex]? with
  | none => (s, [Output.answerCb (some "Сообщение не найдено.")])
  | some currentMessage =>
    let next := moveToNextMessage s
    (next.1, Output.userNotify currentMessage.userId "❌ Ваше сообщение было отклонено." :: next.2)

/-- `handleSkip`: advance the queue without notifying anyone. -/
def handleSkip (s : BotState) : BotState × List Output :=
  moveToNextMessage s

/-- The three reviewer action tokens. -/
inductive AdminAction
  | approve
  | reject
  | skip
deriving DecidableEq

/-- `handleAdminCallback`: authorization gate, decision dispatch, then the
deletion of the review-controls message and the trailing callback
acknowledgment. -/
def handleAdminCallback (adminId : Nat) (botUsername : String) (s : BotState)
    (fromId : Nat) (a : AdminAction) : BotState × List Output :=
  if fromId ≠ adminId then
    (s, [Output.answerCb (some "У вас нет прав для этого действия.")])
  else
    let r :=
      match a with
      | AdminAction.approve => handleApprove botUsername s
      | AdminAction.reject => handleReject s
      | AdminAction.skip => handleSkip s
    (r.1, r.2 ++ [Output.deleteAdminMessage, Output.answerCb none])

/-- `handleUserMessage`: stage the submission under its temp key, send the
3-way choice prompt, and store the choice-message bookkeeping entry. -/
def handleUserMessage (s : BotState) (userId : Nat) (userName : String)
    (username : Option String) (chatId : Int) (messageId : Nat)
    (content : IncomingContent) (timestamp : Nat) (choiceMessageId : Nat) :
    BotState × List Output :=
  let tempMessage : PendingMessage :=
    ⟨userId, userName, username, messageId, chatId, getMessageText content,
     getMessageType content, getMediaData content, timestamp, PublishType.pending, none⟩
  let pm := mapSet s.pendingMessages (MapKey.temp userId messageId) tempMessage
  let pm := mapSet pm (MapKey.choice messageId)
    {tempMessage with choiceMessageId := some choiceMessageId}
  (⟨s.currentMessageIndex, pm, s.messageQueue⟩, [Output.replyChoicePrompt chatId messageId])

/-- The submitter's 3-way choice. -/
inductive Choice
  | with_name
  | anonymous
  | cancel
deriving DecidableEq

/-- Shared body of the `with_name`/`anonymous` arms of `handleUserChoice`:
append the finalized record to the queue tail, store it in the staging map
under its queue position, drop the temp bookkeeping, acknowledge the
submitter, and present the head to the admin when the queue just became
size 1. -/
def resolveChoice (s : BotState) (tempKey : MapKey) (originalMessageId : Nat)
    (tempMessage : PendingMessage) (mode : PublishType) : BotState × List Output :=
  let finalMessage := {tempMessage with publishType := mode}
  let queue := s.messageQueue ++ [finalMessage]
  let messageIndex := queue.length - 1
  let pm := mapSet s.pendingMessages (MapKey.idx messageIndex) finalMessage
  let pm := mapDelete pm tempKey
  let pm := mapDelete pm (MapKey.choice originalMessageId)
  let s' : BotState := ⟨s.currentMessageIndex, pm, queue⟩
  let ack :=
    if mode = PublishType.with_name then
      "✅ Сообщение отправлено администратору на рассмотрение (будет опубликовано с вашим именем)!"
    else
      "✅ Сообщение отправлено администратору на рассмотрение (будет опубликовано анонимно)!"
  let present := if queue.length = 1 then showNextMessageToAdmin s' else []
  (s', Output.editMessageText ack :: present ++ [Output.answerCb none])

/-- `handleUserChoice`: look up the staged submission by its composite key;
absent ⇒ not-found acknowledgment, no mutation; `cancel` discards it;
`with_name`/`anonymous` promote it into the queue. -/
def handleUserChoice (s : BotState) (userId : Nat) (choice : Choice)
    (originalMessageId : Nat) : BotState × List Output :=
  let tempKey := MapKey.temp userId originalMessageId
  match mapGet s.pendingMessages tempKey with
  | none => (s, [Output.answerCb (some "Сообщение не найдено или время ожидания истекло.")])
  | some tempMessage =>
    match choice with
    | Choice.cancel =>
        let pm := mapDelete (mapDelete s.pendingMessages tempKey) (MapKey.choice originalMessageId)
        (⟨s.currentMessageIndex, pm, s.messageQueue⟩,
         [Output.editMessageText "❌ Отправка отменена.", Output.answerCb none])
    | Choice.with_name =>
        resolveChoice s tempKey originalMessageId tempMessage PublishType.with_name
    | Choice.anonymous =>
        resolveChoice s tempKey originalMessageId tempMessage PublishType.anonymous

/-- Typed inbound events (§6 of the transport interface). -/
inductive Event
  | userMessage (userId : Nat) (userName : String) (username : Option String)
      (chatId : Int) (messageId : Nat) (content : IncomingContent)
      (timestamp : Nat) (choiceMessageId : Nat)
  | userChoice (userId : Nat) (choice : Choice) (originalMessageId : Nat)
  | adminAction (fromId : Nat) (action : AdminAction)
deriving DecidableEq

/-- One dispatched inbound event (handlers run to completion, §5). -/
def step (adminId : Nat) (botUsername : String) (s : BotState) :
    Event → BotState × List Output
  | Event.userMessage uid name uname chat mid content ts cmid =>
      handleUserMessage s uid name uname chat mid content ts cmid
  | Event.userChoice uid c mid => handleUserChoice s uid c mid
  | Event.adminAction fid a => handleAdminCallback adminId botUsername s fid a

/-- State after a sequence of events from the constructor state. -/
def runEvents (adminId : Nat) (botUsername : String) (es : List Event) : BotState :=
  es.foldl (fun s e => (step adminId botUsername s e).1) initialState

/-- Full trace of a run: final state, concatenated outputs, and the records
that were appended to the queue, in append order (each step appends at most
one record at the tail, recovered as the queue suffix beyond the previous
length). -/
structure RunTrace where
  state : BotState
  outputs : List Output
  enqueued : List PendingMessage
deriving DecidableEq

/-- One step of the trace-collecting run. -/
def stepTrace (adminId : Nat) (botUsername : String) (t : RunTrace) (e : Event) : RunTrace :=
  let r := step adminId botUsername t.state e
  ⟨r.1, t.outputs ++ r.2, t.enqueued ++ r.1.messageQueue.drop t.state.messageQueue.length⟩

/-- Trace-collecting run from the constructor state. -/
def runTrace (adminId : Nat) (botUsername : String) (es : List Event) : RunTrace :=
  es.foldl (stepTrace adminId botUsername) ⟨initialState, [], []⟩

/-- The records presented to the reviewer, in presentation order. -/
def presentedOf (outs : List Output) : List PendingMessage :=
  outs.filterMap (fun o => match o with | Output.adminPresent m => some m | _ => none)

/-- A record the reviewer presentation and the publisher actually send: it
has media, or JS-truthy text.  Every record built from one of the five
subscribed update kinds whose text body is nonempty satisfies this. -/
def presentable (m : PendingMessage) : Bool :=
  m.media.isSome || optTruthy m.text

/-- Transport guarantee: a text update carries a nonempty body (the
transport never delivers an empty text message). -/
def contentOk : IncomingContent → Bool
  | IncomingContent.text body => body != ""
  | _ => true

/-- Well-formedness of one inbound event. -/
def eventOk : Event → Bool
  | Event.userMessage _ _ _ _ _ content _ _ => contentOk content
  | _ => true

/-! ### Lemmas about the map operations -/

theorem mapGet_mapSet (m : PendingMap) (k k' : MapKey) (v : PendingMessage) :
    mapGet (mapSet m k v) k' = if k = k' then some v else mapGet m k' := by
  induction m with
  | nil => simp [mapSet, mapGet]
  | cons p rest ih =>
      obtain ⟨k₀, v₀⟩ := p
      by_cases h0 : k₀ = k <;> by_cases h : k = k' <;>
        simp_all [mapSet, mapGet]

theorem mapGet_mapDelete (m : PendingMap) (k k' : MapKey) :
    mapGet (mapDelete m k) k' = if k = k' then none else mapGet m k' := by
  induction m with
  | nil => simp [mapDelete, mapGet]
  | cons p rest ih =>
      obtain ⟨k₀, v₀⟩ := p
      by_cases h0 : k₀ = k <;> by_cases h : k = k' <;>
        simp_all [mapDelete, mapGet]

theorem mapDelete_of_get_none (m : PendingMap) (k : MapKey)
    (h : mapGet m k = none) : mapDelete m k = m := by
  induction m with
  | nil => simp [mapDelete]
  | cons p rest ih =>
      obtain ⟨k₀, v₀⟩ := p
      by_cases h0 : k₀ = k
      · subst h0
        simp [mapGet] at h
      · simp [mapGet, h0] at h
        simp [mapDelete, h0, ih h]

theorem mem_mapSet (m : PendingMap) (k : MapKey) (v : PendingMessage)
    (p : MapKey × PendingMessage) (hp : p ∈ mapSet m k v) : p ∈ m ∨ p = (k, v) := by
  induction m with
  | nil =>
      simp [mapSet] at hp
      exact Or.inr hp
  | cons q rest ih =>
      obtain ⟨k₀, v₀⟩ := q
      by_cases h0 : k₀ = k
      · simp [mapSet, h0] at hp
        rcases hp with hp | hp
        · exact Or.inr hp
        · exact Or.inl (List.mem_cons_of_mem _ hp)
      · simp [mapSet, h0] at hp
        rcases hp with hp | hp
        · exact Or.inl (by simp [hp])
        · rcases ih hp with h | h
          · exact Or.inl (List.mem_cons_of_mem _ h)
          · exact Or.inr h

theorem mem_mapDelete (m : PendingMap) (k : MapKey)
    (p : MapKey × PendingMessage) (hp : p ∈ mapDelete m k) : p ∈ m := by
  induction m with
  | nil => simp [mapDelete] at hp
  | cons q rest ih =>
      obtain ⟨k₀, v₀⟩ := q
      by_cases h0 : k₀ = k
      · simp [mapDelete, h0] at hp
        exact List.mem_cons_of_mem _ (ih hp)
      · simp [mapDelete, h0] at hp
        rcases hp with hp | hp
        · simp [hp]
        · exact List.mem_cons_of_mem _ (ih hp)

theorem mapGet_mem (m : PendingMap) (k : MapKey) (v : PendingMessage)
    (h : mapGet m k = some v) : (k, v) ∈ m := by
  induction m with
  | nil => simp [mapGet] at h
  | cons q rest ih =>
      obtain ⟨k₀, v₀⟩ := q
      by_cases h0 : k₀ = k
      · subst h0
        simp [mapGet] at h
        simp [h]
      · simp [mapGet, h0] at h
        exact List.mem_cons_of_mem _ (ih h)

/-! ### Shape lemmas about lists and handler outputs -/

theorem eraseIdx_zero_eq_tail (l : List PendingMessage) : l.eraseIdx 0 = l.tail := by
  cases l <;> rfl

theorem presentedOf_append (a b : List Output) :
    presentedOf (a ++ b) = presentedOf a ++ presentedOf b := by
  simp [presentedOf]

theorem presentedOf_publishToChannel (bu : String) (m : PendingMessage) :
    presentedOf (publishToChannel bu m) = [] := by
  cases hm : m.media <;> by_cases ht : optTruthy m.text <;>
    simp [publishToChannel, hm, ht, presentedOf]

theorem sendMessageToAdmin_of_presentable (m : PendingMessage)
    (h : presentable m = true) : sendMessageToAdmin m = [Output.adminPresent m] := by
  unfold sendMessageToAdmin
  by_cases hm : m.media.isSome
  · simp [hm]
  · have ht : optTruthy m.text = true := by
      simpa [presentable, hm] using h
    simp [hm, ht]

theorem showNext_of_head (s : BotState) (m : PendingMessage) (rest : List PendingMessage)
    (hidx : s.currentMessageIndex = 0) (hq : s.messageQueue = m :: rest)
    (hp : presentable m = true) :
    showNextMessageToAdmin s = [Output.adminPresent m] := by
  simp [showNextMessageToAdmin, hq, hidx, sendMessageToAdmin_of_presentable m hp]

theorem showNext_shape (s : BotState) (o : Output) (ho : o ∈ showNextMessageToAdmin s) :
    (∃ t, o = Output.adminSend t) ∨ (∃ m, o = Output.adminPresent m) := by
  unfold showNextMessageToAdmin at ho
  by_cases hl : s.messageQueue.length = 0
  · simp [hl] at ho
    exact Or.inl ⟨_, ho⟩
  · simp [hl] at ho
    cases hv : s.messageQueue[s.currentMessageIndex]? with
    | none => simp [hv] at ho
    | some m =>
        simp [hv, sendMessageToAdmin] at ho
        by_cases hm : m.media.isSome
        · simp [hm] at ho
          exact Or.inr ⟨_, ho⟩
        · by_cases ht : optTruthy m.text
          · simp [hm, ht] at ho
            exact Or.inr ⟨_, ho⟩
          · simp [hm, ht] at ho

/-! ### Reduced forms of the admin callback -/

theorem handleAdminCallback_other (adminId : Nat) (bu : String) (s : BotState)
    (fid : Nat) (a : AdminAction) (h : fid ≠ adminId) :
    handleAdminCallback adminId bu s fid a =
      (s, [Output.answerCb (some "У вас нет прав для этого действия.")]) := by
  simp [handleAdminCallback, h]

theorem handleAdminCallback_approve (adminId : Nat) (bu : String) (s : BotState) :
    handleAdminCallback adminId bu s adminId AdminAction.approve =
      ((handleApprove bu s).1,
       (handleApprove bu s).2 ++ [Output.deleteAdminMessage, Output.answerCb none]) := by
  simp [handleAdminCallback]

theorem handleAdminCallback_reject (adminId : Nat) (bu : String) (s : BotState) :
    handleAdminCallback adminId bu s adminId AdminAction.reject =
      ((handleReject s).1,
       (handleReject s).2 ++ [Output.deleteAdminMessage, Output.answerCb none]) := by
  simp [handleAdminCallback]

theorem handleAdminCallback_skip (adminId : Nat) (bu : String) (s : BotState) :
    handleAdminCallback adminId bu s adminId AdminAction.skip =
      ((handleSkip s).1,
       (handleSkip s).2 ++ [Output.deleteAdminMessage, Output.answerCb none]) := by
  simp [handleAdminCallback]

theorem handleApprove_none (bu : String) (s : BotState)
    (h : s.messageQueue[s.currentMessageIndex]? = none) :
    handleApprove bu s = (s, [Output.answerCb (some "Сообщение не найдено.")]) := by
  simp [handleApprove, h]

theorem handleApprove_head (bu : String) (s : BotState) (hd : PendingMessage)
    (h : s.messageQueue[s.currentMessageIndex]? = some hd) :
    handleApprove bu s = ((moveToNextMessage s).1,
      publishToChannel bu hd ++ [Output.userNotify hd.userId (approveNotice hd)] ++
        (moveToNextMessage s).2) := by
  simp [handleApprove, h]

theorem handleReject_none (s : BotState)
    (h : s.messageQueue[s.currentMessageIndex]? = none) :
    handleReject s = (s, [Output.answerCb (some "Сообщение не найдено.")]) := by
  simp [handleReject, h]

theorem handleReject_head (s : BotState) (hd : PendingMessage)
    (h : s.messageQueue[s.currentMessageIndex]? = some hd) :
    handleReject s = ((moveToNextMessage s).1,
      Output.userNotify hd.userId "❌ Ваше сообщение было отклонено." ::
        (moveToNextMessage s).2) := by
  simp [handleReject, h]

theorem head_getElem_cons (s : BotState) (hd : PendingMessage) (tl : List PendingMessage)
    (hidx : s.currentMessageIndex = 0) (hq : s.messageQueue = hd :: tl) :
    s.messageQueue[s.currentMessageIndex]? = some hd := by
  rw [hidx, hq]
  simp

theorem head_getElem_nil (s : BotState)
    (hidx : s.currentMessageIndex = 0) (hq : s.messageQueue = []) :
    s.messageQueue[s.currentMessageIndex]? = none := by
  rw [hidx, hq]
  simp

/-! ### The reachable-state invariant -/

/-- Invariant of every reachable state: the current index is `0` (it is
initialized to `0` and only ever reassigned to `0`), and when the queue is
empty the staging map holds no entry under the index key `0` (whenever the
queue becomes empty, `moveToNextMessage` has just deleted that key). -/
def StateInv (s : BotState) : Prop :=
  s.currentMessageIndex = 0 ∧
  (s.messageQueue = [] → mapGet s.pendingMessages (MapKey.idx 0) = none)

theorem moveToNext_state (s : BotState) (hidx : s.currentMessageIndex = 0) :
    (moveToNextMessage s).1 =
      ⟨0, mapDelete s.pendingMessages (MapKey.idx 0), s.messageQueue.tail⟩ := by
  unfold moveToNextMessage
  rw [hidx, eraseIdx_zero_eq_tail]
  show (if (s.messageQueue.tail).length = 0 then _ else _ : BotState × List Output).1 = _
  split <;> rfl

theorem stateInv_step (adminId : Nat) (bu : String) (s : BotState) (e : Event)
    (h : StateInv s) : StateInv (step adminId bu s e).1 := by
  obtain ⟨hidx, hempty⟩ := h
  cases e with
  | userMessage uid name uname chat mid content ts cmid =>
      refine ⟨by simp [step, handleUserMessage, hidx], ?_⟩
      intro hq
      simp [step, handleUserMessage] at hq ⊢
      rw [mapGet_mapSet, mapGet_mapSet]
      simp [hempty hq]
  | userChoice uid c mid =>
      cases hget : mapGet s.pendingMessages (MapKey.temp uid mid) with
      | none =>
          simpa [step, handleUserChoice, hget] using ⟨hidx, hempty⟩
      | some tm =>
          cases c with
          | cancel =>
              refine ⟨by simp [step, handleUserChoice, hget, hidx], ?_⟩
              intro hq
              simp [step, handleUserChoice, hget] at hq ⊢
              rw [mapGet_mapDelete, mapGet_mapDelete]
              simp [hempty hq]
          | with_name =>
              refine ⟨by simp [step, handleUserChoice, hget, resolveChoice, hidx], ?_⟩
              intro hq
              simp [step, handleUserChoice, hget, resolveChoice] at hq
          | anonymous =>
              refine ⟨by simp [step, handleUserChoice, hget, resolveChoice, hidx], ?_⟩
              intro hq
              simp [step, handleUserChoice, hget, resolveChoice] at hq
  | adminAction fid a =>
      by_cases hf : fid = adminId
      · have hmove : StateInv (moveToNextMessage s).1 := by
          rw [moveToNext_state s hidx]
          refine ⟨rfl, ?_⟩
          intro _
          rw [mapGet_mapDelete]
          simp
        cases a with
        | approve =>
            cases hq : s.messageQueue with
            | nil =>
                simpa [step, handleAdminCallback, hf, handleApprove, hidx, hq]
                  using ⟨hidx, hempty⟩
            | cons hd tl =>
                simpa [step, handleAdminCallback, hf, handleApprove, hidx, hq]
                  using hmove
        | reject =>
            cases hq : s.messageQueue with
            | nil =>
                simpa [step, handleAdminCallback, hf, handleReject, hidx, hq]
                  using ⟨hidx, hempty⟩
            | cons hd tl =>
                simpa [step, handleAdminCallback, hf, handleReject, hidx, hq]
                  using hmove
        | skip =>
            simpa [step, handleAdminCallback, hf, handleSkip] using hmove
      · simpa [step, handleAdminCallback, hf] using ⟨hidx, hempty⟩

theorem stateInv_foldl (adminId : Nat) (bu : String) (es : List Event) (s : BotState)
    (h : StateInv s) :
    StateInv (es.foldl (fun s e => (step adminId bu s e).1) s) := by
  induction es generalizing s with
  | nil => exact h
  | cons e rest ih => exact ih _ (stateInv_step adminId bu s e h)

theorem stateInv_initial : StateInv initialState := ⟨rfl, fun _ => rfl⟩

theorem stateInv_runEvents (adminId : Nat) (bu : String) (es : List Event) :
    StateInv (runEvents adminId bu es) :=
  stateInv_foldl adminId bu es initialState stateInv_initial

/-! ### Presentability -/

theorem presentable_update_publishType (m : PendingMessage) (mode : PublishType) :
    presentable {m with publishType := mode} = presentable m := rfl

theorem presentable_staged (uid : Nat) (name : String) (uname : Option String)
    (mid : Nat) (chat : Int) (content : IncomingContent) (ts : Nat) (cm : Option Nat)
    (h : contentOk content = true) :
    presentable ⟨uid, name, uname, mid, chat, getMessageText content,
      getMessageType content, getMediaData content, ts, PublishType.pending, cm⟩ = true := by
  cases content <;>
    simp_all [presentable, getMessageText, getMediaData, contentOk, optTruthy]

/-! ### Trace bookkeeping for the FIFO property -/

/-- Core bookkeeping of one `resolveChoice` call: presentability of the new
map and queue, and the FIFO delta — what got presented during this call
followed by the new behind-the-head part of the queue equals the old
behind-the-head part followed by the newly enqueued records. -/
theorem resolveChoice_core (s : BotState) (uid mid : Nat) (tm : PendingMessage)
    (mode : PublishType)
    (hidx : s.currentMessageIndex = 0)
    (hmap : ∀ p ∈ s.pendingMessages, presentable p.2 = true)
    (hqueue : ∀ m ∈ s.messageQueue, presentable m = true)
    (htm : presentable tm = true) :
    (∀ p ∈ (resolveChoice s (MapKey.temp uid mid) mid tm mode).1.pendingMessages,
        presentable p.2 = true) ∧
    (∀ m ∈ (resolveChoice s (MapKey.temp uid mid) mid tm mode).1.messageQueue,
        presentable m = true) ∧
    presentedOf (resolveChoice s (MapKey.temp uid mid) mid tm mode).2 ++
        (resolveChoice s (MapKey.temp uid mid) mid tm mode).1.messageQueue.tail
      = s.messageQueue.tail ++
        (resolveChoice s (MapKey.temp uid mid) mid tm mode).1.messageQueue.drop
          s.messageQueue.length := by
  have hfm : presentable {tm with publishType := mode} = true := by
    rw [presentable_update_publishType]; exact htm
  refine ⟨?_, ?_, ?_⟩
  · intro p hp
    simp only [resolveChoice] at hp
    have hp := mem_mapDelete _ _ _ hp
    have hp := mem_mapDelete _ _ _ hp
    rcases mem_mapSet _ _ _ _ hp with hp | hp
    · exact hmap _ hp
    · rw [hp]
      exact hfm
  · intro m hm
    simp only [resolveChoice] at hm
    rcases List.mem_append.mp hm with hm | hm
    · exact hqueue _ hm
    · simp at hm
      rw [hm]
      exact hfm
  · cases hq : s.messageQueue with
    | nil =>
        have hshow : showNextMessageToAdmin
            ⟨s.currentMessageIndex,
             mapDelete (mapDelete (mapSet s.pendingMessages (MapKey.idx 0)
               {tm with publishType := mode}) (MapKey.temp uid mid)) (MapKey.choice mid),
             [{tm with publishType := mode}]⟩ = [Output.adminPresent {tm with publishType := mode}] :=
          showNext_of_head _ _ _ hidx rfl hfm
        simp [resolveChoice, hq, hshow, presentedOf]
    | cons hd tl =>
        have hlen : ¬ ((hd :: tl) ++ [{tm with publishType := mode}]).length = 1 := by
          simp
        simp only [resolveChoice, hq, hlen, if_neg]
        simp [presentedOf, List.drop_left]

/-- Core bookkeeping of one `moveToNextMessage` call. -/
theorem moveToNext_core (s : BotState)
    (hidx : s.currentMessageIndex = 0)
    (hmap : ∀ p ∈ s.pendingMessages, presentable p.2 = true)
    (hqueue : ∀ m ∈ s.messageQueue, presentable m = true) :
    (∀ p ∈ (moveToNextMessage s).1.pendingMessages, presentable p.2 = true) ∧
    (∀ m ∈ (moveToNextMessage s).1.messageQueue, presentable m = true) ∧
    presentedOf (moveToNextMessage s).2 ++ (moveToNextMessage s).1.messageQueue.tail
      = s.messageQueue.tail ++
        (moveToNextMessage s).1.messageQueue.drop s.messageQueue.length := by
  have hstate := moveToNext_state s hidx
  refine ⟨?_, ?_, ?_⟩
  · intro p hp
    rw [hstate] at hp
    exact hmap _ (mem_mapDelete _ _ _ hp)
  · intro m hm
    rw [hstate] at hm
    cases hq : s.messageQueue with
    | nil => rw [hq] at hm; simp at hm
    | cons hd tl =>
        rw [hq] at hm
        exact hqueue _ (by rw [hq]; exact List.mem_cons_of_mem _ hm)
  · cases hq : s.messageQueue with
    | nil =>
        simp [moveToNextMessage, hq, hidx, presentedOf]
    | cons hd tl =>
        cases htl : tl with
        | nil =>
            simp [moveToNextMessage, hq, htl, hidx, presentedOf]
        | cons h2 t2 =>
            have hshow : showNextMessageToAdmin
                ⟨0, mapDelete s.pendingMessages (MapKey.idx 0),
                 h2 :: t2⟩ = [Output.adminPresent h2] := by
              refine showNext_of_head _ _ _ rfl rfl ?_
              refine hqueue _ ?_
              rw [hq, htl]
              exact List.mem_cons_of_mem _ (List.mem_cons_self _ _)
            have hdrop : List.drop (t2.length + 1) t2 = [] :=
              List.drop_eq_nil_of_le (by omega)
            simp only [moveToNextMessage, hq, htl, hidx, eraseIdx_zero_eq_tail]
            simp [hshow, presentedOf, hdrop]

/-- Core bookkeeping of one dispatched event (under a well-formed event):
presentability of all staged and queued records is preserved, and the FIFO
delta equation holds. -/
theorem step_trace_core (adminId : Nat) (bu : String) (s : BotState) (e : Event)
    (hidx : s.currentMessageIndex = 0)
    (hmap : ∀ p ∈ s.pendingMessages, presentable p.2 = true)
    (hqueue : ∀ m ∈ s.messageQueue, presentable m = true)
    (he : eventOk e = true) :
    (∀ p ∈ (step adminId bu s e).1.pendingMessages, presentable p.2 = true) ∧
    (∀ m ∈ (step adminId bu s e).1.messageQueue, presentable m = true) ∧
    presentedOf (step adminId bu s e).2 ++ (step adminId bu s e).1.messageQueue.tail
      = s.messageQueue.tail ++
        (step adminId bu s e).1.messageQueue.drop s.messageQueue.length := by
  cases e with
  | userMessage uid name uname chat mid content ts cmid =>
      have hpres := presentable_staged uid name uname mid chat content ts none he
      have hpres' := presentable_staged uid name uname mid chat content ts (some cmid)
        (by simpa [eventOk] using he)
      refine ⟨?_, ?_, ?_⟩
      · intro p hp
        simp only [step, handleUserMessage] at hp
        rcases mem_mapSet _ _ _ _ hp with hp | hp
        · rcases mem_mapSet _ _ _ _ hp with hp | hp
          · exact hmap _ hp
          · rw [hp]; exact hpres
        · rw [hp]; exact hpres'
      · intro m hm
        simp only [step, handleUserMessage] at hm
        exact hqueue _ hm
      · simp [step, handleUserMessage, presentedOf, List.drop_length]
  | userChoice uid c mid =>
      cases hget : mapGet s.pendingMessages (MapKey.temp uid mid) with
      | none =>
          refine ⟨?_, ?_, ?_⟩
          · intro p hp
            simp only [step, handleUserChoice, hget] at hp
            exact hmap _ hp
          · intro m hm
            simp only [step, handleUserChoice, hget] at hm
            exact hqueue _ hm
          · simp [step, handleUserChoice, hget, presentedOf, List.drop_length]
      | some tm =>
          have htm : presentable tm = true := hmap _ (mapGet_mem _ _ _ hget)
          cases c with
          | cancel =>
              refine ⟨?_, ?_, ?_⟩
              · intro p hp
                simp only [step, handleUserChoice, hget] at hp
                exact hmap _ (mem_mapDelete _ _ _ (mem_mapDelete _ _ _ hp))
              · intro m hm
                simp only [step, handleUserChoice, hget] at hm
                exact hqueue _ hm
              · simp [step, handleUserChoice, hget, presentedOf, List.drop_length]
          | with_name =>
              have hcore := resolveChoice_core s uid mid tm PublishType.with_name
                hidx hmap hqueue htm
              simpa [step, handleUserChoice, hget] using hcore
          | anonymous =>
              have hcore := resolveChoice_core s uid mid tm PublishType.anonymous
                hidx hmap hqueue htm
              simpa [step, handleUserChoice, hget] using hcore
  | adminAction fid a =>
      by_cases hf : fid = adminId
      · rw [hf]
        have hmove := moveToNext_core s hidx hmap hqueue
        cases a with
        | approve =>
            cases hq : s.messageQueue with
            | nil =>
                have hred : step adminId bu s (Event.adminAction adminId AdminAction.approve) =
                    (s, [Output.answerCb (some "Сообщение не найдено."),
                         Output.deleteAdminMessage, Output.answerCb none]) := by
                  rw [show step adminId bu s (Event.adminAction adminId AdminAction.approve) =
                      handleAdminCallback adminId bu s adminId AdminAction.approve from rfl,
                    handleAdminCallback_approve,
                    handleApprove_none bu s (head_getElem_nil s hidx hq)]
                  rfl
                rw [hred]
                exact ⟨hmap, hqueue, by simp [presentedOf, hq]⟩
            | cons hd tl =>
                have hred : step adminId bu s (Event.adminAction adminId AdminAction.approve) =
                    ((moveToNextMessage s).1,
                     (publishToChannel bu hd ++
                        [Output.userNotify hd.userId (approveNotice hd)] ++
                        (moveToNextMessage s).2) ++
                      [Output.deleteAdminMessage, Output.answerCb none]) := by
                  rw [show step adminId bu s (Event.adminAction adminId AdminAction.approve) =
                      handleAdminCallback adminId bu s adminId AdminAction.approve from rfl,
                    handleAdminCallback_approve,
                    handleApprove_head bu s hd (head_getElem_cons s hd tl hidx hq)]
                rw [hred]
                refine ⟨hmove.1, hmove.2.1, ?_⟩
                have h22 := hmove.2.2
                rw [hq] at h22
                simp only [presentedOf_append, presentedOf_publishToChannel]
                simpa [presentedOf] using h22
        | reject =>
            cases hq : s.messageQueue with
            | nil =>
                have hred : step adminId bu s (Event.adminAction adminId AdminAction.reject) =
                    (s, [Output.answerCb (some "Сообщение не найдено."),
                         Output.deleteAdminMessage, Output.answerCb none]) := by
                  rw [show step adminId bu s (Event.adminAction adminId AdminAction.reject) =
                      handleAdminCallback adminId bu s adminId AdminAction.reject from rfl,
                    handleAdminCallback_reject,
                    handleReject_none s (head_getElem_nil s hidx hq)]
                  rfl
                rw [hred]
                exact ⟨hmap, hqueue, by simp [presentedOf, hq]⟩
            | cons hd tl =>
                have hred : step adminId bu s (Event.adminAction adminId AdminAction.reject) =
                    ((moveToNextMessage s).1,
                     (Output.userNotify hd.userId "❌ Ваше сообщение было отклонено." ::
                        (moveToNextMessage s).2) ++
                      [Output.deleteAdminMessage, Output.answerCb none]) := by
                  rw [show step adminId bu s (Event.adminAction adminId AdminAction.reject) =
                      handleAdminCallback adminId bu s adminId AdminAction.reject from rfl,
                    handleAdminCallback_reject,
                    handleReject_head s hd (head_getElem_cons s hd tl hidx hq)]
                rw [hred]
                refine ⟨hmove.1, hmove.2.1, ?_⟩
                have h22 := hmove.2.2
                rw [hq] at h22
                simpa [presentedOf_append, presentedOf] using h22
        | skip =>
            have hred : step adminId bu s (Event.adminAction adminId AdminAction.skip) =
                ((moveToNextMessage s).1,
                 (moveToNextMessage s).2 ++
                   [Output.deleteAdminMessage, Output.answerCb none]) := by
              rw [show step adminId bu s (Event.adminAction adminId AdminAction.skip) =
                  handleAdminCallback adminId bu s adminId AdminAction.skip from rfl,
                handleAdminCallback_skip]
              rfl
            rw [hred]
            refine ⟨hmove.1, hmove.2.1, ?_⟩
            simpa [presentedOf_append, presentedOf] using hmove.2.2
      · have hred : step adminId bu s (Event.adminAction fid a) =
            (s, [Output.answerCb (some "У вас нет прав для этого действия.")]) := by
          rw [show step adminId bu s (Event.adminAction fid a) =
              handleAdminCallback adminId bu s fid a from rfl,
            handleAdminCallback_other adminId bu s fid a hf]
        rw [hred]
        exact ⟨hmap, hqueue, by simp [presentedOf, List.drop_length]⟩

/-- Invariant of the trace-collecting run under well-formed inbound events:
the state invariant, presentability of every staged and queued record, and
the FIFO bookkeeping — the records presented so far followed by the
not-yet-presented part of the queue (everything behind the head) are exactly
the records enqueued so far, in order. -/
def TraceInv (t : RunTrace) : Prop :=
  StateInv t.state ∧
  (∀ p ∈ t.state.pendingMessages, presentable p.2 = true) ∧
  (∀ m ∈ t.state.messageQueue, presentable m = true) ∧
  presentedOf t.outputs ++ t.state.messageQueue.tail = t.enqueued

theorem traceInv_stepTrace (adminId : Nat) (bu : String) (t : RunTrace) (e : Event)
    (h : TraceInv t) (he : eventOk e = true) :
    TraceInv (stepTrace adminId bu t e) := by
  obtain ⟨hsi, hmap, hqueue, hfifo⟩ := h
  have hcore := step_trace_core adminId bu t.state e hsi.1 hmap hqueue he
  have hshape : stepTrace adminId bu t e =
      ⟨(step adminId bu t.state e).1, t.outputs ++ (step adminId bu t.state e).2,
       t.enqueued ++ (step adminId bu t.state e).1.messageQueue.drop
         t.state.messageQueue.length⟩ := rfl
  rw [hshape]
  refine ⟨stateInv_step adminId bu t.state e hsi, hcore.1, hcore.2.1, ?_⟩
  rw [presentedOf_append, List.append_assoc, hcore.2.2, ← List.append_assoc, hfifo]

theorem traceInv_foldl (adminId : Nat) (bu : String) (es : List Event) (t : RunTrace)
    (ht : TraceInv t) (he : ∀ e ∈ es, eventOk e = true) :
    TraceInv (es.foldl (stepTrace adminId bu) t) := by
  induction es generalizing t with
  | nil => exact ht
  | cons e rest ih =>
      exact ih _ (traceInv_stepTrace _ _ _ _ ht (he e (List.mem_cons_self _ _)))
        (fun x hx => he x (List.mem_cons_of_mem _ hx))

theorem traceInv_runTrace (adminId : Nat) (bu : String) (es : List Event)
    (he : ∀ e ∈ es, eventOk e = true) : TraceInv (runTrace adminId bu es) := by
  refine traceInv_foldl adminId bu es _ ?_ he
  exact ⟨stateInv_initial, by simp [initialState], by simp [initialState],
    by simp [presentedOf, initialState]⟩

/-! ### Further handler-shape lemmas -/

theorem moveToNext_empty (s : BotState) (hidx : s.currentMessageIndex = 0)
    (hq : s.messageQueue = []) (hnone : mapGet s.pendingMessages (MapKey.idx 0) = none) :
    moveToNextMessage s =
      (s, [Output.headRemoved, Output.adminSend "✅ Все сообщения обработаны!"]) := by
  unfold moveToNextMessage
  rw [hidx, hq, mapDelete_of_get_none _ _ hnone]
  have hs : (⟨0, s.pendingMessages, []⟩ : BotState) = s := by
    rw [← hidx, ← hq]
  simp [hs]

theorem moveToNext_outputs (s : BotState) :
    ∃ restMove, (moveToNextMessage s).2 = Output.headRemoved :: restMove ∧
      ∀ o ∈ restMove, (∃ t, o = Output.adminSend t) ∨ (∃ m, o = Output.adminPresent m) := by
  unfold moveToNextMessage
  by_cases hlen : (s.messageQueue.eraseIdx s.currentMessageIndex).length = 0
  · refine ⟨[Output.adminSend "✅ Все сообщения обработаны!"], by simp [hlen], ?_⟩
    intro o ho
    simp at ho
    exact Or.inl ⟨_, ho⟩
  · refine ⟨showNextMessageToAdmin ⟨s.currentMessageIndex,
      mapDelete s.pendingMessages (MapKey.idx s.currentMessageIndex),
      s.messageQueue.eraseIdx s.currentMessageIndex⟩, by simp [hlen], ?_⟩
    intro o ho
    exact showNext_shape _ o ho

theorem publishToChannel_shape (bu : String) (m : PendingMessage) :
    ∀ o ∈ publishToChannel bu m, ∃ c, o = Output.channelPost c := by
  intro o ho
  cases hm : m.media <;> by_cases ht : optTruthy m.text <;>
    simp [publishToChannel, hm, ht] at ho <;> exact ⟨_, ho⟩

theorem publishToChannel_one_post (bu : String) (m : PendingMessage)
    (hp : presentable m = true) :
    ∃ c, publishToChannel bu m = [Output.channelPost c] := by
  cases hm : m.media with
  | none =>
      have ht : optTruthy m.text = true := by
        simpa [presentable, hm] using hp
      simp only [publishToChannel, hm, ht]
      exact ⟨_, rfl⟩
  | some media =>
      simp only [publishToChannel, hm]
      exact ⟨_, rfl⟩

/-! ### More map lemmas (for the staging-map growth argument) -/

theorem mapGet_append (m₁ m₂ : PendingMap) (k : MapKey) :
    mapGet (m₁ ++ m₂) k =
      match mapGet m₁ k with
      | some v => some v
      | none => mapGet m₂ k := by
  induction m₁ with
  | nil => simp [mapGet]
  | cons p rest ih =>
      obtain ⟨k₀, v₀⟩ := p
      by_cases h0 : k₀ = k <;> simp [mapGet, h0, ih]

theorem mapSet_of_get_none (m : PendingMap) (k : MapKey) (v : PendingMessage)
    (h : mapGet m k = none) : mapSet m k v = m ++ [(k, v)] := by
  induction m with
  | nil => simp [mapSet]
  | cons p rest ih =>
      obtain ⟨k₀, v₀⟩ := p
      by_cases h0 : k₀ = k
      · subst h0
        simp [mapGet] at h
      · simp [mapGet, h0] at h
        simp [mapSet, h0, ih h]

theorem mapDelete_append (m₁ m₂ : PendingMap) (k : MapKey) :
    mapDelete (m₁ ++ m₂) k = mapDelete m₁ k ++ mapDelete m₂ k := by
  induction m₁ with
  | nil => simp [mapDelete]
  | cons p rest ih =>
      obtain ⟨k₀, v₀⟩ := p
      by_cases h0 : k₀ = k <;> simp [mapDelete, h0, ih]

/-! ### Concrete sample data used by witnesses and counterexamples -/

/-- Alice (no handle) submits the text "Hello" (spec scenario). -/
def aliceSubmit : Event :=
  Event.userMessage 1 "Alice" none 10 100 (IncomingContent.text "Hello") 0 500

/-- Alice chooses anonymous publication. -/
def aliceAnon : Event := Event.userChoice 1 Choice.anonymous 100

/-- A staged (pre-choice) sample record. -/
def sampleTemp : PendingMessage :=
  ⟨1, "Alice", none, 2, 3, some "Привет", "text", none, 0, PublishType.pending, none⟩

/-- A state holding `sampleTemp` under its temp key. -/
def sampleState : BotState := ⟨0, [(MapKey.temp 1 2, sampleTemp)], []⟩

/-! ### Claim theorems -/

/-- C7: in every reachable state the current-message index equals 0, so the
record that every reviewer decision reads
(`messageQueue[currentMessageIndex]`) is always the queue's front element —
at most one record (the head) is ever under review. -/
theorem c7_head_is_decision_target (adminId : Nat) (bu : String) (es : List Event) :
    (runEvents adminId bu es).currentMessageIndex = 0 ∧
    (runEvents adminId bu es).messageQueue[(runEvents adminId bu es).currentMessageIndex]?
      = (runEvents adminId bu es).messageQueue.head? := by
  have h := stateInv_runEvents adminId bu es
  refine ⟨h.1, ?_⟩
  rw [h.1]
  cases (runEvents adminId bu es).messageQueue <;> simp

/-- C8: a reviewer-action token from any identity other than the designated
reviewer leaves the state untouched and produces only the authorization-error
acknowledgment — no destination post, no submitter notification, no
mutation. -/
theorem c8_nonreviewer_noop (adminId : Nat) (bu : String) (s : BotState)
    (fid : Nat) (a : AdminAction) (h : fid ≠ adminId) :
    (handleAdminCallback adminId bu s fid a).1 = s ∧
    (handleAdminCallback adminId bu s fid a).2 =
      [Output.answerCb (some "У вас нет прав для этого действия.")] := by
  rw [handleAdminCallback_other adminId bu s fid a h]
  exact ⟨rfl, rfl⟩

/-- Witness for C8 at a concrete non-reviewer identity. -/
theorem c8_nonreviewer_noop_witness :
    (handleAdminCallback 0 "bot" initialState 1 AdminAction.approve).1 = initialState ∧
    (handleAdminCallback 0 "bot" initialState 1 AdminAction.approve).2 =
      [Output.answerCb (some "У вас нет прав для этого действия.")] :=
  c8_nonreviewer_noop 0 "bot" initialState 1 AdminAction.approve (by decide)

/-- C9: any resolution (cancel, named or anonymous) of a staged key removes
that key from the staging map, and every subsequent resolve on the same key
returns the not-found acknowledgment with no mutation. -/
theorem c9_resolution_idempotent_by_absence (s : BotState) (uid mid : Nat)
    (choice : Choice) (tm : PendingMessage)
    (hget : mapGet s.pendingMessages (MapKey.temp uid mid) = some tm) :
    mapGet (handleUserChoice s uid choice mid).1.pendingMessages (MapKey.temp uid mid)
      = none ∧
    ∀ choice2 : Choice,
      handleUserChoice (handleUserChoice s uid choice mid).1 uid choice2 mid =
        ((handleUserChoice s uid choice mid).1,
         [Output.answerCb (some "Сообщение не найдено или время ожидания истекло.")]) := by
  have hnone : mapGet (handleUserChoice s uid choice mid).1.pendingMessages
      (MapKey.temp uid mid) = none := by
    cases choice with
    | cancel => simp [handleUserChoice, hget, mapGet_mapDelete]
    | with_name => simp [handleUserChoice, hget, resolveChoice, mapGet_mapDelete, mapGet_mapSet]
    | anonymous => simp [handleUserChoice, hget, resolveChoice, mapGet_mapDelete, mapGet_mapSet]
  refine ⟨hnone, fun choice2 => ?_⟩
  set s' := (handleUserChoice s uid choice mid).1 with hs'
  simp [handleUserChoice, hnone]

/-- Witness for C9: cancelling a concrete staged submission, then resolving
it again. -/
theorem c9_resolution_idempotent_by_absence_witness :
    mapGet (handleUserChoice sampleState 1 Choice.cancel 2).1.pendingMessages
      (MapKey.temp 1 2) = none ∧
    ∀ choice2 : Choice,
      handleUserChoice (handleUserChoice sampleState 1 Choice.cancel 2).1 1 choice2 2 =
        ((handleUserChoice sampleState 1 Choice.cancel 2).1,
         [Output.answerCb (some "Сообщение не найдено или время ожидания истекло.")]) :=
  c9_resolution_idempotent_by_absence sampleState 1 2 Choice.cancel sampleTemp rfl

/-- C2: a reviewer decision (publish, reject or skip) arriving in a
reachable state whose queue is empty is a no-op: the state (queue, staging
map, index) is unchanged, nothing is sent to any submitter or to the
channel, nothing is presented, and the reviewer gets a nothing-to-review
acknowledgment (the not-found callback answer for publish/reject, the
"all processed" notice for skip). -/
theorem c2_decide_empty_noop (adminId : Nat) (bu : String) (es : List Event)
    (a : AdminAction) (hq : (runEvents adminId bu es).messageQueue = []) :
    (handleAdminCallback adminId bu (runEvents adminId bu es) adminId a).1
        = runEvents adminId bu es ∧
    (∀ uid t, Output.userNotify uid t ∉
        (handleAdminCallback adminId bu (runEvents adminId bu es) adminId a).2) ∧
    (∀ c, Output.channelPost c ∉
        (handleAdminCallback adminId bu (runEvents adminId bu es) adminId a).2) ∧
    (∀ m, Output.adminPresent m ∉
        (handleAdminCallback adminId bu (runEvents adminId bu es) adminId a).2) ∧
    (Output.answerCb (some "Сообщение не найдено.") ∈
        (handleAdminCallback adminId bu (runEvents adminId bu es) adminId a).2 ∨
      Output.adminSend "✅ Все сообщения обработаны!" ∈
        (handleAdminCallback adminId bu (runEvents adminId bu es) adminId a).2) := by
  have hsi := stateInv_runEvents adminId bu es
  set s := runEvents adminId bu es with hs
  have hidx := hsi.1
  have hnone := hsi.2 hq
  cases a with
  | approve =>
      rw [handleAdminCallback_approve, handleApprove_none bu s (head_getElem_nil s hidx hq)]
      refine ⟨rfl, ?_, ?_, ?_, ?_⟩ <;> simp
  | reject =>
      rw [handleAdminCallback_reject, handleReject_none s (head_getElem_nil s hidx hq)]
      refine ⟨rfl, ?_, ?_, ?_, ?_⟩ <;> simp
  | skip =>
      rw [handleAdminCallback_skip,
        show handleSkip s = moveToNextMessage s from rfl,
        moveToNext_empty s hidx hq hnone]
      refine ⟨rfl, ?_, ?_, ?_, ?_⟩ <;> simp

/-- Witness for C2: a skip decision on the freshly constructed (empty)
state. -/
theorem c2_decide_empty_noop_witness :
    (handleAdminCallback 0 "bot" (runEvents 0 "bot" []) 0 AdminAction.skip).1
        = runEvents 0 "bot" [] ∧
    (∀ uid t, Output.userNotify uid t ∉
        (handleAdminCallback 0 "bot" (runEvents 0 "bot" []) 0 AdminAction.skip).2) ∧
    (∀ c, Output.channelPost c ∉
        (handleAdminCallback 0 "bot" (runEvents 0 "bot" []) 0 AdminAction.skip).2) ∧
    (∀ m, Output.adminPresent m ∉
        (handleAdminCallback 0 "bot" (runEvents 0 "bot" []) 0 AdminAction.skip).2) ∧
    (Output.answerCb (some "Сообщение не найдено.") ∈
        (handleAdminCallback 0 "bot" (runEvents 0 "bot" []) 0 AdminAction.skip).2 ∨
      Output.adminSend "✅ Все сообщения обработаны!" ∈
        (handleAdminCallback 0 "bot" (runEvents 0 "bot" []) 0 AdminAction.skip).2) :=
  c2_decide_empty_noop 0 "bot" [] AdminAction.skip rfl

/-- C1 (the code, evaluated at the spec's own scenario): Alice submits
"Hello", chooses anonymous, the reviewer publishes.  The channel body the
code produces is `escapeHTML ("Hello" ++ signature)` — the promotional
signature's markup is escaped along with the user text (its `<a href=...>`
anchor arrives as `&lt;a href=...&gt;`), and the body differs from the
spec-mandated `escapeHTML "Hello" ++ signature` with the signature's markup
intact. -/
theorem c1_publish_escapes_signature :
    (step 7 "bot" (runEvents 7 "bot" [aliceSubmit, aliceAnon])
        (Event.adminAction 7 AdminAction.approve)).2[0]? =
      some (Output.channelPost (ChannelContent.textPost
        "Hello\n\n&lt;a href=\"https://t.me/bot\"&gt;Предложка&lt;/a&gt;")) ∧
    "Hello\n\n&lt;a href=\"https://t.me/bot\"&gt;Предложка&lt;/a&gt;" ≠
      escapeHTML "Hello" ++ signatureFor "bot" := by
  constructor
  · rfl
  · decide

/-- The record produced by `aliceSubmit` + `aliceAnon`. -/
def anonRecord : PendingMessage :=
  ⟨1, "Alice", none, 100, 10, some "Hello", "text", none, 0, PublishType.anonymous, none⟩

/-- C3, counterexample: in the concrete reachable state where Alice's
anonymous "Hello" is the head, the approve decision emits the channel
publish (trace position 0) and the submitter notification (position 1)
while the decided record is still the queue head — the head-removal
mutation (`headRemoved`, position 2) and the review-controls deletion
(`deleteAdminMessage`, position 4) happen only afterwards.  This refutes
the claim that no network send happens while the decided record is still
the active head. -/
theorem c3_counterexample_publish_before_invalidate :
    (step 7 "bot" (runEvents 7 "bot" [aliceSubmit, aliceAnon])
        (Event.adminAction 7 AdminAction.approve)).2 =
      [Output.channelPost (ChannelContent.textPost
         "Hello\n\n&lt;a href=\"https://t.me/bot\"&gt;Предложка&lt;/a&gt;"),
       Output.userNotify 1 "✅ Ваше сообщение было одобрено и опубликовано! (анонимно)",
       Output.headRemoved,
       Output.adminSend "✅ Все сообщения обработаны!",
       Output.deleteAdminMessage,
       Output.answerCb none] := by
  rfl

/-- C3, amended: for every reviewer decision accepted on a non-empty head,
the downstream network effects come FIRST — every channel publish and every
submitter notification occurs strictly before the head-removal mutation,
and the review-controls message deletion comes only after the removal. -/
theorem c3_amended_sends_before_invalidate (adminId : Nat) (bu : String)
    (s : BotState) (a : AdminAction) (hd : PendingMessage) (tl : List PendingMessage)
    (hidx : s.currentMessageIndex = 0) (hq : s.messageQueue = hd :: tl) :
    ∃ pre post,
      (step adminId bu s (Event.adminAction adminId a)).2
          = pre ++ Output.headRemoved :: post ∧
      Output.headRemoved ∉ pre ∧
      (∀ c, Output.channelPost c ∉ post) ∧
      (∀ uid t, Output.userNotify uid t ∉ post) ∧
      Output.deleteAdminMessage ∉ pre := by
  obtain ⟨restMove, hmv, hshape⟩ := moveToNext_outputs s
  have hpost2 : ∀ o ∈ restMove ++ [Output.deleteAdminMessage, Output.answerCb none],
      (∀ c, o ≠ Output.channelPost c) ∧ (∀ uid t, o ≠ Output.userNotify uid t) := by
    intro o ho
    rcases List.mem_append.mp ho with ho | ho
    · rcases hshape o ho with ⟨t, rfl⟩ | ⟨m, rfl⟩ <;> exact ⟨fun c => by simp, fun uid t => by simp⟩
    · simp at ho
      rcases ho with rfl | rfl <;> exact ⟨fun c => by simp, fun uid t => by simp⟩
  cases a with
  | approve =>
      have hred : (step adminId bu s (Event.adminAction adminId AdminAction.approve)).2 =
          (publishToChannel bu hd ++ [Output.userNotify hd.userId (approveNotice hd)] ++
            (moveToNextMessage s).2) ++ [Output.deleteAdminMessage, Output.answerCb none] := by
        rw [show step adminId bu s (Event.adminAction adminId AdminAction.approve) =
            handleAdminCallback adminId bu s adminId AdminAction.approve from rfl,
          handleAdminCallback_approve,
          handleApprove_head bu s hd (head_getElem_cons s hd tl hidx hq)]
      refine ⟨publishToChannel bu hd ++ [Output.userNotify hd.userId (approveNotice hd)],
        restMove ++ [Output.deleteAdminMessage, Output.answerCb none], ?_, ?_, ?_, ?_, ?_⟩
      · rw [hred, hmv]
        simp
      · intro hmem
        rcases List.mem_append.mp hmem with hmem | hmem
        · obtain ⟨c, hc⟩ := publishToChannel_shape bu hd _ hmem
          simp at hc
        · simp at hmem
      · intro c hc
        exact (hpost2 _ hc).1 c rfl
      · intro uid t ht
        exact (hpost2 _ ht).2 uid t rfl
      · intro hmem
        rcases List.mem_append.mp hmem with hmem | hmem
        · obtain ⟨c, hc⟩ := publishToChannel_shape bu hd _ hmem
          simp at hc
        · simp at hmem
  | reject =>
      have hred : (step adminId bu s (Event.adminAction adminId AdminAction.reject)).2 =
          (Output.userNotify hd.userId "❌ Ваше сообщение было отклонено." ::
            (moveToNextMessage s).2) ++ [Output.deleteAdminMessage, Output.answerCb none] := by
        rw [show step adminId bu s (Event.adminAction adminId AdminAction.reject) =
            handleAdminCallback adminId bu s adminId AdminAction.reject from rfl,
          handleAdminCallback_reject,
          handleReject_head s hd (head_getElem_cons s hd tl hidx hq)]
      refine ⟨[Output.userNotify hd.userId "❌ Ваше сообщение было отклонено."],
        restMove ++ [Output.deleteAdminMessage, Output.answerCb none], ?_, ?_, ?_, ?_, ?_⟩
      · rw [hred, hmv]
        simp
      · simp
      · intro c hc
        exact (hpost2 _ hc).1 c rfl
      · intro uid t ht
        exact (hpost2 _ ht).2 uid t rfl
      · simp
  | skip =>
      have hred : (step adminId bu s (Event.adminAction adminId AdminAction.skip)).2 =
          (moveToNextMessage s).2 ++ [Output.deleteAdminMessage, Output.answerCb none] := by
        rw [show step adminId bu s (Event.adminAction adminId AdminAction.skip) =
            handleAdminCallback adminId bu s adminId AdminAction.skip from rfl,
          handleAdminCallback_skip]
        rfl
      refine ⟨[], restMove ++ [Output.deleteAdminMessage, Output.answerCb none],
        ?_, by simp, ?_, ?_, by simp⟩
      · rw [hred, hmv]
        simp
      · intro c hc
        exact (hpost2 _ hc).1 c rfl
      · intro uid t ht
        exact (hpost2 _ ht).2 uid t rfl

/-- Witness for the amended C3 at the concrete Alice scenario. -/
theorem c3_amended_sends_before_invalidate_witness :
    ∃ pre post,
      (step 7 "bot" (runEvents 7 "bot" [aliceSubmit, aliceAnon])
          (Event.adminAction 7 AdminAction.approve)).2
          = pre ++ Output.headRemoved :: post ∧
      Output.headRemoved ∉ pre ∧
      (∀ c, Output.channelPost c ∉ post) ∧
      (∀ uid t, Output.userNotify uid t ∉ post) ∧
      Output.deleteAdminMessage ∉ pre :=
  c3_amended_sends_before_invalidate 7 "bot" (runEvents 7 "bot" [aliceSubmit, aliceAnon])
    AdminAction.approve anonRecord [] (by rfl) (by rfl)

/-- Is this output a destination-channel post? -/
def isChannelPost : Output → Bool
  | Output.channelPost _ => true
  | _ => false

/-- C4: on a non-empty queue (head `hd`, as every reachable head: index 0
and presentable content), skip removes the head and notifies nobody;
reject removes the head and sends the rejection notice; publish removes the
head, sends the mode-aware approval notice, and emits exactly one
destination-channel post. -/
theorem c4_decision_effects (adminId : Nat) (bu : String) (s : BotState)
    (hd : PendingMessage) (tl : List PendingMessage)
    (hidx : s.currentMessageIndex = 0) (hq : s.messageQueue = hd :: tl)
    (hp : presentable hd = true) :
    ((handleAdminCallback adminId bu s adminId AdminAction.skip).1.messageQueue = tl ∧
      (∀ uid t, Output.userNotify uid t ∉
        (handleAdminCallback adminId bu s adminId AdminAction.skip).2) ∧
      (∀ c, Output.channelPost c ∉
        (handleAdminCallback adminId bu s adminId AdminAction.skip).2)) ∧
    ((handleAdminCallback adminId bu s adminId AdminAction.reject).1.messageQueue = tl ∧
      Output.userNotify hd.userId "❌ Ваше сообщение было отклонено." ∈
        (handleAdminCallback adminId bu s adminId AdminAction.reject).2 ∧
      (∀ c, Output.channelPost c ∉
        (handleAdminCallback adminId bu s adminId AdminAction.reject).2)) ∧
    ((handleAdminCallback adminId bu s adminId AdminAction.approve).1.messageQueue = tl ∧
      Output.userNotify hd.userId (approveNotice hd) ∈
        (handleAdminCallback adminId bu s adminId AdminAction.approve).2 ∧
      (handleAdminCallback adminId bu s adminId AdminAction.approve).2.countP
        isChannelPost = 1) := by
  have hqueue : (moveToNextMessage s).1.messageQueue = tl := by
    rw [moveToNext_state s hidx, hq]
    rfl
  obtain ⟨restMove, hmv, hshape⟩ := moveToNext_outputs s
  have hmoveNo : ∀ o ∈ (moveToNextMessage s).2,
      (∀ c, o ≠ Output.channelPost c) ∧ (∀ uid t, o ≠ Output.userNotify uid t) := by
    intro o ho
    rw [hmv] at ho
    rcases List.mem_cons.mp ho with rfl | ho
    · exact ⟨fun c => by simp, fun uid t => by simp⟩
    · rcases hshape o ho with ⟨t, rfl⟩ | ⟨m, rfl⟩ <;>
        exact ⟨fun c => by simp, fun uid t => by simp⟩
  have hmoveCount : (moveToNextMessage s).2.countP isChannelPost = 0 := by
    rw [List.countP_eq_zero]
    intro o ho
    rcases (hmoveNo o ho).1 with h
    cases o <;> simp [isChannelPost]
    · exact h _ rfl
  refine ⟨?_, ?_, ?_⟩
  · rw [handleAdminCallback_skip, show handleSkip s = moveToNextMessage s from rfl]
    refine ⟨hqueue, ?_, ?_⟩
    · intro uid t ht
      rcases List.mem_append.mp ht with ht | ht
      · exact (hmoveNo _ ht).2 uid t rfl
      · simp at ht
    · intro c hc
      rcases List.mem_append.mp hc with hc | hc
      · exact (hmoveNo _ hc).1 c rfl
      · simp at hc
  · rw [handleAdminCallback_reject, handleReject_head s hd (head_getElem_cons s hd tl hidx hq)]
    refine ⟨hqueue, by simp, ?_⟩
    · intro c hc
      simp only [List.cons_append, List.mem_cons] at hc
      rcases hc with hc | hc
      · simp at hc
      · rcases List.mem_append.mp hc with hc | hc
        · exact (hmoveNo _ hc).1 c rfl
        · simp at hc
  · rw [handleAdminCallback_approve, handleApprove_head bu s hd (head_getElem_cons s hd tl hidx hq)]
    obtain ⟨c0, hc0⟩ := publishToChannel_one_post bu hd hp
    refine ⟨hqueue, by simp, ?_⟩
    rw [List.countP_append, List.countP_append, List.countP_append, hc0]
    rw [hmoveCount]
    simp [isChannelPost]

/-- Witness for C4 at the concrete Alice scenario. -/
theorem c4_decision_effects_witness :
    ((handleAdminCallback 7 "bot" (runEvents 7 "bot" [aliceSubmit, aliceAnon]) 7
        AdminAction.skip).1.messageQueue = [] ∧
      (∀ uid t, Output.userNotify uid t ∉
        (handleAdminCallback 7 "bot" (runEvents 7 "bot" [aliceSubmit, aliceAnon]) 7
          AdminAction.skip).2) ∧
      (∀ c, Output.channelPost c ∉
        (handleAdminCallback 7 "bot" (runEvents 7 "bot" [aliceSubmit, aliceAnon]) 7
          AdminAction.skip).2)) ∧
    ((handleAdminCallback 7 "bot" (runEvents 7 "bot" [aliceSubmit, aliceAnon]) 7
        AdminAction.reject).1.messageQueue = [] ∧
      Output.userNotify anonRecord.userId "❌ Ваше сообщение было отклонено." ∈
        (handleAdminCallback 7 "bot" (runEvents 7 "bot" [aliceSubmit, aliceAnon]) 7
          AdminAction.reject).2 ∧
      (∀ c, Output.channelPost c ∉
        (handleAdminCallback 7 "bot" (runEvents 7 "bot" [aliceSubmit, aliceAnon]) 7
          AdminAction.reject).2)) ∧
    ((handleAdminCallback 7 "bot" (runEvents 7 "bot" [aliceSubmit, aliceAnon]) 7
        AdminAction.approve).1.messageQueue = [] ∧
      Output.userNotify anonRecord.userId (approveNotice anonRecord) ∈
        (handleAdminCallback 7 "bot" (runEvents 7 "bot" [aliceSubmit, aliceAnon]) 7
          AdminAction.approve).2 ∧
      (handleAdminCallback 7 "bot" (runEvents 7 "bot" [aliceSubmit, aliceAnon]) 7
        AdminAction.approve).2.countP isChannelPost = 1) :=
  c4_decision_effects 7 "bot" (runEvents 7 "bot" [aliceSubmit, aliceAnon])
    anonRecord [] (by rfl) (by rfl) (by decide)

/-- A nonempty string stays nonempty under right-append. -/
theorem strTruthy_append_left (a b : String) (ha : strTruthy a = true) :
    strTruthy (a ++ b) = true := by
  unfold strTruthy at *
  have ha' : a ≠ "" := bne_iff_ne.mp ha
  have hlen : a.length ≠ 0 := by
    intro h0
    apply ha'
    cases a with
    | mk data =>
        cases data with
        | nil => rfl
        | cons c cs => simp [String.length] at h0
  refine bne_iff_ne.mpr ?_
  intro he
  have hz : (a ++ b).length = 0 := by rw [he]; rfl
  rw [String.length_append] at hz
  omega

/-- The text carried by a channel send: the body of a text post, the
caption of a media post. -/
def postContent : Output → Option String
  | Output.channelPost (ChannelContent.textPost b) => some b
  | Output.channelPost (ChannelContent.mediaPost _ _ cap) => cap
  | _ => none

/-- C5: publishing a `with_name` record yields destination content whose
(escaped) body or caption starts with the attribution
`От: {userName}` plus ` (@{username})` exactly when a handle is present;
publishing an `anonymous` record yields content entirely independent of the
submitter's display name and handle. -/
theorem c5_attribution (bu : String) (m : PendingMessage) :
    (m.publishType = PublishType.with_name →
      ∀ o ∈ publishToChannel bu m, ∃ rest : String,
        postContent o = some (escapeHTML ("От: " ++ m.userName ++
          (if optTruthy m.username then " (@" ++ m.username.getD "" ++ ")" else "") ++
          rest))) ∧
    (m.publishType = PublishType.anonymous →
      ∀ (n : String) (u : Option String),
        publishToChannel bu {m with userName := n, username := u}
          = publishToChannel bu m) := by
  constructor
  · intro hmode o ho
    have h1 : strTruthy ("От: " ++ m.userName ++
        (if optTruthy m.username then " (@" ++ m.username.getD "" ++ ")" else "")) = true :=
      strTruthy_append_left _ _ (strTruthy_append_left _ _ (by decide))
    cases hm : m.media with
    | some media =>
        have h2 : strTruthy (("От: " ++ m.userName ++
            (if optTruthy m.username then " (@" ++ m.username.getD "" ++ ")" else "")) ++
            (if optTruthy media.caption then "\n\n" ++ media.caption.getD "" else "")) = true :=
          strTruthy_append_left _ _ h1
        have h3 := strTruthy_append_left _ (signatureFor bu) h2
        simp only [publishToChannel, hmode, hm] at ho
        simp only [Option.isSome_some, if_true, h2, h3, if_pos] at ho
        simp at ho
        refine ⟨(if optTruthy media.caption then "\n\n" ++ media.caption.getD "" else "") ++
          signatureFor bu, ?_⟩
        rw [ho]
        simp [postContent, h2, h3, String.append_assoc]
    | none =>
        by_cases ht : optTruthy m.text
        · have h2 : strTruthy (("От: " ++ m.userName ++
              (if optTruthy m.username then " (@" ++ m.username.getD "" ++ ")" else "")) ++
              "\n\n" ++ m.text.getD "") = true :=
            strTruthy_append_left _ _ (strTruthy_append_left _ _ h1)
          have h3 := strTruthy_append_left _ (signatureFor bu) h2
          simp only [publishToChannel, hmode, hm, ht] at ho
          simp only [Option.isSome_none, if_true, if_pos, h2, h3] at ho
          simp at ho
          refine ⟨"\n\n" ++ m.text.getD "" ++ signatureFor bu, ?_⟩
          rw [ho]
          simp [postContent, h2, h3, String.append_assoc]
        · simp [publishToChannel, hmode, hm, ht] at ho
  · intro hmode n u
    simp [publishToChannel, hmode]

/-- Bob (handle "bobby") submits "Hi" with named publication (spec
scenario). -/
def bobRecord : PendingMessage :=
  ⟨2, "Bob", some "bobby", 5, 6, some "Hi", "text", none, 0, PublishType.with_name, none⟩

/-- Witness for C5: Bob's named record carries the attribution; Alice's
anonymous record publishes identically under any substituted identity. -/
theorem c5_attribution_witness :
    (∀ o ∈ publishToChannel "bot" bobRecord, ∃ rest : String,
      postContent o = some (escapeHTML ("От: " ++ bobRecord.userName ++
        (if optTruthy bobRecord.username then " (@" ++ bobRecord.username.getD "" ++ ")"
         else "") ++ rest))) ∧
    publishToChannel "bot" {anonRecord with userName := "Mallory", username := some "mallory"}
      = publishToChannel "bot" anonRecord :=
  ⟨(c5_attribution "bot" bobRecord).1 rfl,
   (c5_attribution "bot" anonRecord).2 rfl "Mallory" (some "mallory")⟩

/-- C6, FIFO: (a) each dispatched event leaves the queue unchanged, appends
exactly one record at the tail, or removes exactly the head (no reordering,
no requeue); (b) over any well-formed run from the constructor state, the
sequence of records presented to the reviewer is a prefix of the sequence of
records enqueued — submissions are presented in resolution order. -/
theorem c6_fifo (adminId : Nat) (bu : String) :
    (∀ (s : BotState) (e : Event), s.currentMessageIndex = 0 →
      (step adminId bu s e).1.messageQueue = s.messageQueue ∨
      (∃ r, (step adminId bu s e).1.messageQueue = s.messageQueue ++ [r]) ∨
      (step adminId bu s e).1.messageQueue = s.messageQueue.tail) ∧
    (∀ es : List Event, (∀ e ∈ es, eventOk e = true) →
      presentedOf (runTrace adminId bu es).outputs <+:
        (runTrace adminId bu es).enqueued) := by
  constructor
  · intro s e hidx
    cases e with
    | userMessage uid name uname chat mid content ts cmid =>
        exact Or.inl (by simp [step, handleUserMessage])
    | userChoice uid c mid =>
        cases hget : mapGet s.pendingMessages (MapKey.temp uid mid) with
        | none => exact Or.inl (by simp [step, handleUserChoice, hget])
        | some tm =>
            cases c with
            | cancel => exact Or.inl (by simp [step, handleUserChoice, hget])
            | with_name =>
                exact Or.inr (Or.inl ⟨{tm with publishType := PublishType.with_name},
                  by simp [step, handleUserChoice, hget, resolveChoice]⟩)
            | anonymous =>
                exact Or.inr (Or.inl ⟨{tm with publishType := PublishType.anonymous},
                  by simp [step, handleUserChoice, hget, resolveChoice]⟩)
    | adminAction fid a =>
        by_cases hf : fid = adminId
        · rw [hf]
          have htail : (moveToNextMessage s).1.messageQueue = s.messageQueue.tail := by
            rw [moveToNext_state s hidx]
          cases a with
          | approve =>
              cases hq : s.messageQueue with
              | nil =>
                  refine Or.inl ?_
                  rw [show step adminId bu s (Event.adminAction adminId AdminAction.approve) =
                      handleAdminCallback adminId bu s adminId AdminAction.approve from rfl,
                    handleAdminCallback_approve,
                    handleApprove_none bu s (head_getElem_nil s hidx hq)]
                  simpa using hq
              | cons hd tl =>
                  refine Or.inr (Or.inr ?_)
                  rw [show step adminId bu s (Event.adminAction adminId AdminAction.approve) =
                      handleAdminCallback adminId bu s adminId AdminAction.approve from rfl,
                    handleAdminCallback_approve,
                    handleApprove_head bu s hd (head_getElem_cons s hd tl hidx hq)]
                  have h2 := htail
                  rw [hq] at h2
                  simpa using h2
          | reject =>
              cases hq : s.messageQueue with
              | nil =>
                  refine Or.inl ?_
                  rw [show step adminId bu s (Event.adminAction adminId AdminAction.reject) =
                      handleAdminCallback adminId bu s adminId AdminAction.reject from rfl,
                    handleAdminCallback_reject,
                    handleReject_none s (head_getElem_nil s hidx hq)]
                  simpa using hq
              | cons hd tl =>
                  refine Or.inr (Or.inr ?_)
                  rw [show step adminId bu s (Event.adminAction adminId AdminAction.reject) =
                      handleAdminCallback adminId bu s adminId AdminAction.reject from rfl,
                    handleAdminCallback_reject,
                    handleReject_head s hd (head_getElem_cons s hd tl hidx hq)]
                  have h2 := htail
                  rw [hq] at h2
                  simpa using h2
          | skip =>
              refine Or.inr (Or.inr ?_)
              rw [show step adminId bu s (Event.adminAction adminId AdminAction.skip) =
                  handleAdminCallback adminId bu s adminId AdminAction.skip from rfl,
                handleAdminCallback_skip]
              simpa using htail
        · exact Or.inl (by
            rw [show step adminId bu s (Event.adminAction fid a) =
                handleAdminCallback adminId bu s fid a from rfl,
              handleAdminCallback_other adminId bu s fid a hf])
  · intro es he
    exact ⟨(runTrace adminId bu es).state.messageQueue.tail,
      (traceInv_runTrace adminId bu es he).2.2.2⟩

/-- Witness for C6: a concrete submission step and the concrete two-event
Alice run. -/
theorem c6_fifo_witness :
    ((step 7 "bot" initialState aliceSubmit).1.messageQueue = initialState.messageQueue ∨
      (∃ r, (step 7 "bot" initialState aliceSubmit).1.messageQueue =
        initialState.messageQueue ++ [r]) ∨
      (step 7 "bot" initialState aliceSubmit).1.messageQueue =
        initialState.messageQueue.tail) ∧
    presentedOf (runTrace 7 "bot" [aliceSubmit, aliceAnon]).outputs <+:
      (runTrace 7 "bot" [aliceSubmit, aliceAnon]).enqueued :=
  ⟨(c6_fifo 7 "bot").1 initialState aliceSubmit rfl,
   (c6_fifo 7 "bot").2 [aliceSubmit, aliceAnon] (by decide)⟩

/-! ### Staging-map growth (C10 infrastructure) -/

/-- Is this key an index key (queue-position key)? -/
def isIdxKey : MapKey → Bool
  | MapKey.idx _ => true
  | _ => false

/-- Number of index-keyed entries in the staging map. -/
def idxKeyCount (m : PendingMap) : Nat := ((m.map Prod.fst).filter isIdxKey).length

/-- The staged record of the i-th growth submission. -/
def growTemp (i : Nat) : PendingMessage :=
  ⟨1, "U", none, i, 1, some "hi", "text", none, 0, PublishType.pending, none⟩

/-- The finalized record of the i-th growth submission. -/
def growRec (i : Nat) : PendingMessage :=
  ⟨1, "U", none, i, 1, some "hi", "text", none, 0, PublishType.anonymous, none⟩

/-- The staging map after n growth rounds: one index-keyed entry per
resolved submission, none of them ever deleted. -/
def idxEntries (n : Nat) : PendingMap :=
  (List.range n).map (fun i => (MapKey.idx i, growRec i))

/-- n rounds of submit-then-resolve, with no reviewer decision in
between. -/
def growEvents : Nat → List Event
  | 0 => []
  | n + 1 => growEvents n ++
      [Event.userMessage 1 "U" none 1 n (IncomingContent.text "hi") 0 0,
       Event.userChoice 1 Choice.anonymous n]

theorem mapGet_idxEntries_of_not_idx (n : Nat) (k : MapKey)
    (h : ∀ i, k ≠ MapKey.idx i) : mapGet (idxEntries n) k = none := by
  induction n with
  | zero => rfl
  | succ n ih =>
      unfold idxEntries at *
      rw [List.range_succ, List.map_append, mapGet_append, ih]
      simp [mapGet, Ne.symm (h n)]

theorem mapGet_idxEntries_ge (n k : Nat) (h : n ≤ k) :
    mapGet (idxEntries n) (MapKey.idx k) = none := by
  induction n with
  | zero => rfl
  | succ n ih =>
      unfold idxEntries at *
      rw [List.range_succ, List.map_append, mapGet_append, ih (by omega)]
      have hne : n ≠ k := by omega
      simp [mapGet, hne]

theorem idxKeyCount_idxEntries (n : Nat) : idxKeyCount (idxEntries n) = n := by
  unfold idxKeyCount idxEntries
  rw [List.map_map]
  rw [List.filter_eq_self.mpr]
  · simp
  · intro a ha
    simp only [List.mem_map] at ha
    obtain ⟨i, _, rfl⟩ := ha
    rfl

/-- The exact state after n growth rounds. -/
theorem grow_state (adminId : Nat) (bu : String) (n : Nat) :
    runEvents adminId bu (growEvents n) =
      ⟨0, idxEntries n, (List.range n).map growRec⟩ := by
  induction n with
  | zero => rfl
  | succ n ih =>
      have hrun : runEvents adminId bu (growEvents (n + 1)) =
          (step adminId bu (step adminId bu (runEvents adminId bu (growEvents n))
            (Event.userMessage 1 "U" none 1 n (IncomingContent.text "hi") 0 0)).1
            (Event.userChoice 1 Choice.anonymous n)).1 := by
        show runEvents adminId bu (growEvents n ++ [_, _]) = _
        unfold runEvents
        rw [List.foldl_append]
        rfl
      rw [hrun, ih]
      have h1 : (step adminId bu (⟨0, idxEntries n, (List.range n).map growRec⟩ : BotState)
          (Event.userMessage 1 "U" none 1 n (IncomingContent.text "hi") 0 0)).1 =
          ⟨0, idxEntries n ++ [(MapKey.temp 1 n, growTemp n),
            (MapKey.choice n, {growTemp n with choiceMessageId := some 0})],
           (List.range n).map growRec⟩ := by
        simp only [step, handleUserMessage]
        rw [mapSet_of_get_none _ _ _
          (mapGet_idxEntries_of_not_idx n _ (fun i => by simp))]
        rw [mapSet_of_get_none _ _ _ (by
          rw [mapGet_append, mapGet_idxEntries_of_not_idx n _ (fun i => by simp)]
          simp [mapGet])]
        simp [getMessageText, getMessageType, getMediaData, growTemp]
      rw [h1]
      have hget : mapGet (idxEntries n ++ [(MapKey.temp 1 n, growTemp n),
          (MapKey.choice n, {growTemp n with choiceMessageId := some 0})])
          (MapKey.temp 1 n) = some (growTemp n) := by
        rw [mapGet_append, mapGet_idxEntries_of_not_idx n _ (fun i => by simp)]
        simp [mapGet]
      have hfm : ({growTemp n with publishType := PublishType.anonymous} : PendingMessage)
          = growRec n := rfl
      simp only [step, handleUserChoice, hget, resolveChoice, hfm]
      have hlen : ((List.range n).map growRec ++ [growRec n]).length - 1 = n := by
        simp
      rw [hlen]
      have hsetnone : mapGet (idxEntries n ++ [(MapKey.temp 1 n, growTemp n),
          (MapKey.choice n, {growTemp n with choiceMessageId := some 0})])
          (MapKey.idx n) = none := by
        rw [mapGet_append, mapGet_idxEntries_ge n n (le_refl n)]
        simp [mapGet]
      rw [mapSet_of_get_none _ _ _ hsetnone]
      rw [List.append_assoc]
      rw [mapDelete_append, mapDelete_append]
      rw [mapDelete_of_get_none _ _
        (mapGet_idxEntries_of_not_idx n _ (fun i => by simp))]
      rw [mapDelete_of_get_none _ _
        (mapGet_idxEntries_of_not_idx n _ (fun i => by simp))]
      have hconcat : (⟨0,
          idxEntries n ++
            mapDelete (mapDelete ([(MapKey.temp 1 n, growTemp n),
              (MapKey.choice n, {growTemp n with choiceMessageId := some 0})] ++
              [(MapKey.idx n, growRec n)]) (MapKey.temp 1 n)) (MapKey.choice n),
          (List.range n).map growRec ++ [growRec n]⟩ : BotState) =
          ⟨0, idxEntries (n + 1), (List.range (n + 1)).map growRec⟩ := by
        have hm : mapDelete (mapDelete ([(MapKey.temp 1 n, growTemp n),
            (MapKey.choice n, {growTemp n with choiceMessageId := some 0})] ++
            [(MapKey.idx n, growRec n)]) (MapKey.temp 1 n)) (MapKey.choice n) =
            [(MapKey.idx n, growRec n)] := by
          simp [mapDelete]
        rw [hm]
        unfold idxEntries
        rw [List.range_succ, List.map_append, List.map_append]
        simp
      exact hconcat

/-- A state with a stale index-1 staging entry and a one-record queue. -/
def leakState : BotState := ⟨0, [(MapKey.idx 1, sampleTemp)], [anonRecord]⟩

/-- C10: (a) resolution stores the finalized record in the staging map under
its queue position; (b) no dispatched event ever removes an index-keyed
entry with key ≥ 1 (reviewer decisions delete only the current index,
always 0); (c) hence the staging map grows without bound — after n
submit-resolve rounds it holds exactly n index-keyed entries. -/
theorem c10_staging_leak (adminId : Nat) (bu : String) :
    (∀ (s : BotState) (uid mid : Nat) (tm : PendingMessage) (c : Choice),
      mapGet s.pendingMessages (MapKey.temp uid mid) = some tm →
      c ≠ Choice.cancel →
      mapGet (handleUserChoice s uid c mid).1.pendingMessages
          (MapKey.idx s.messageQueue.length)
        = some {tm with publishType :=
            match c with
            | Choice.with_name => PublishType.with_name
            | _ => PublishType.anonymous}) ∧
    (∀ (s : BotState) (e : Event) (k : Nat),
      s.currentMessageIndex = 0 → 1 ≤ k →
      (mapGet s.pendingMessages (MapKey.idx k)).isSome = true →
      (mapGet (step adminId bu s e).1.pendingMessages (MapKey.idx k)).isSome = true) ∧
    (∀ n : Nat, idxKeyCount (runEvents adminId bu (growEvents n)).pendingMessages = n) := by
  refine ⟨?_, ?_, ?_⟩
  · intro s uid mid tm c hget hc
    cases c with
    | cancel => exact absurd rfl hc
    | with_name =>
        simp [handleUserChoice, hget, resolveChoice, mapGet_mapDelete, mapGet_mapSet]
    | anonymous =>
        simp [handleUserChoice, hget, resolveChoice, mapGet_mapDelete, mapGet_mapSet]
  · intro s e k hidx hk hsome
    have hne : (0 : Nat) ≠ k := by omega
    cases e with
    | userMessage uid name uname chat mid content ts cmid =>
        simp only [step, handleUserMessage]
        rw [mapGet_mapSet, mapGet_mapSet]
        simpa using hsome
    | userChoice uid c mid =>
        cases hget : mapGet s.pendingMessages (MapKey.temp uid mid) with
        | none => simpa [step, handleUserChoice, hget] using hsome
        | some tm =>
            cases c with
            | cancel =>
                simp only [step, handleUserChoice, hget]
                rw [mapGet_mapDelete, mapGet_mapDelete]
                simpa using hsome
            | with_name =>
                simp only [step, handleUserChoice, hget, resolveChoice]
                rw [mapGet_mapDelete, mapGet_mapDelete, mapGet_mapSet]
                simp only [reduceCtorEq, if_false]
                split
                · simp
                · simpa using hsome
            | anonymous =>
                simp only [step, handleUserChoice, hget, resolveChoice]
                rw [mapGet_mapDelete, mapGet_mapDelete, mapGet_mapSet]
                simp only [reduceCtorEq, if_false]
                split
                · simp
                · simpa using hsome
    | adminAction fid a =>
        by_cases hf : fid = adminId
        · rw [hf]
          have hmove : (mapGet (moveToNextMessage s).1.pendingMessages
              (MapKey.idx k)).isSome = true := by
            rw [moveToNext_state s hidx, mapGet_mapDelete]
            simpa [hne] using hsome
          cases a with
          | approve =>
              cases hq : s.messageQueue with
              | nil =>
                  rw [show step adminId bu s (Event.adminAction adminId AdminAction.approve) =
                      handleAdminCallback adminId bu s adminId AdminAction.approve from rfl,
                    handleAdminCallback_approve,
                    handleApprove_none bu s (head_getElem_nil s hidx hq)]
                  simpa using hsome
              | cons hd tl =>
                  rw [show step adminId bu s (Event.adminAction adminId AdminAction.approve) =
                      handleAdminCallback adminId bu s adminId AdminAction.approve from rfl,
                    handleAdminCallback_approve,
                    handleApprove_head bu s hd (head_getElem_cons s hd tl hidx hq)]
                  simpa using hmove
          | reject =>
              cases hq : s.messageQueue with
              | nil =>
                  rw [show step adminId bu s (Event.adminAction adminId AdminAction.reject) =
                      handleAdminCallback adminId bu s adminId AdminAction.reject from rfl,
                    handleAdminCallback_reject,
                    handleReject_none s (head_getElem_nil s hidx hq)]
                  simpa using hsome
              | cons hd tl =>
                  rw [show step adminId bu s (Event.adminAction adminId AdminAction.reject) =
                      handleAdminCallback adminId bu s adminId AdminAction.reject from rfl,
                    handleAdminCallback_reject,
                    handleReject_head s hd (head_getElem_cons s hd tl hidx hq)]
                  simpa using hmove
          | skip =>
              rw [show step adminId bu s (Event.adminAction adminId AdminAction.skip) =
                  handleAdminCallback adminId bu s adminId AdminAction.skip from rfl,
                handleAdminCallback_skip]
              simpa using hmove
        · rw [show step adminId bu s (Event.adminAction fid a) =
              handleAdminCallback adminId bu s fid a from rfl,
            handleAdminCallback_other adminId bu s fid a hf]
          simpa using hsome
  · intro n
    rw [grow_state adminId bu n]
    exact idxKeyCount_idxEntries n

/-- Witness for C10 at concrete inputs: a concrete resolution stores under
index key 0; a concrete skip decision preserves the stale index-1 entry;
two growth rounds leave two index keys. -/
theorem c10_staging_leak_witness :
    mapGet (handleUserChoice sampleState 1 Choice.anonymous 2).1.pendingMessages
        (MapKey.idx sampleState.messageQueue.length)
      = some {sampleTemp with publishType := PublishType.anonymous} ∧
    (mapGet (step 7 "bot" leakState (Event.adminAction 7 AdminAction.skip)).1.pendingMessages
        (MapKey.idx 1)).isSome = true ∧
    idxKeyCount (runEvents 7 "bot" (growEvents 2)).pendingMessages = 2 :=
  ⟨(c10_staging_leak 7 "bot").1 sampleState 1 2 sampleTemp Choice.anonymous rfl (by decide),
   (c10_staging_leak 7 "bot").2.1 leakState (Event.adminAction 7 AdminAction.skip) 1 rfl
     (by decide) rfl,
   (c10_staging_leak 7 "bot").2.2 2⟩

end PredlozhkaBot
